import Mathlib

/-
  Verification development for the QSDsan process-compilation layer and the
  sanitation unit operations.

  Sources embedded from the repository:
  * qsdsan/processes/_CANDO.py, _CANDO3.py, _Sharon.py (the `Processes`
    call sites: parameter declarations, `extend`, compile pipeline shape,
    the hand-built `_p12`/`_p14` rate equations);
  * qsdsan/sanunits/_anaerobic_reactors.py (AnaerobicBaffledReactor._run);
  * qsdsan/sanunits/_electrochemical_cell.py (ElectroChemCell._run).

  The `Processes`/`Components` compiler itself (load_from_file, compile,
  set_parameters, the conservation resolver, the rate evaluator) is not part
  of the source snippet set; those operations are modelled from the
  specification, as noted in the doc comment of each such definition.

  All stoichiometric arithmetic is carried out over the rationals; the
  specification's floating-point-tolerance equalities become exact equalities.
-/

/-! ## Linear stoichiometry: dot products and coefficient specifications -/

/-- Dot product of two coefficient lists, truncating at the shorter one. -/
def dotQ : List ℚ → List ℚ → ℚ
  | x :: xs, y :: ys => x * y + dotQ xs ys
  | _, _ => 0

@[simp] theorem dotQ_nil_left (v : List ℚ) : dotQ [] v = 0 := by
  cases v <;> rfl

@[simp] theorem dotQ_nil_right (v : List ℚ) : dotQ v [] = 0 := by
  cases v <;> rfl

@[simp] theorem dotQ_cons (x y : ℚ) (xs ys : List ℚ) :
    dotQ (x :: xs) (y :: ys) = x * y + dotQ xs ys := rfl

/-- A stoichiometric coefficient in a reaction template: either a literal
value (a number, or a parameter-linked coefficient instantiated at its
default value) or a `?` placeholder to be solved from conservation. -/
inductive CoeffSpec where
  | known (c : ℚ)
  | unknown
deriving DecidableEq, Repr

/-- Number of `?` placeholders in a template row. -/
def numUnknowns : List CoeffSpec → Nat
  | [] => 0
  | .known _ :: rest => numUnknowns rest
  | .unknown :: rest => numUnknowns rest + 1

/-- The literal coefficients of a row, reading `?` as 0; used only for rows
with no unknowns, where it is the row's coefficient vector. -/
def knownVals : List CoeffSpec → List ℚ
  | [] => []
  | .known c :: rest => c :: knownVals rest
  | .unknown :: rest => 0 :: knownVals rest

/-- Substitute a solution vector (one value per `?`, in order) into a row. -/
def substCoeffs : List CoeffSpec → List ℚ → List ℚ
  | [], _ => []
  | .known c :: rest, s => c :: substCoeffs rest s
  | .unknown :: rest, [] => 0 :: substCoeffs rest []
  | .unknown :: rest, a :: as => a :: substCoeffs rest as

/-- Contribution of the known coefficients of a row to a conserved-quantity
equation with conversion-factor vector `v`. -/
def knownDot : List CoeffSpec → List ℚ → ℚ
  | .known c :: rest, v :: vs => c * v + knownDot rest vs
  | .unknown :: rest, _ :: vs => knownDot rest vs
  | _, _ => 0

/-- The conversion factors at the `?` positions of a row: the coefficient
row of the linear system in the unknowns, for one conserved quantity. -/
def unkRow : List CoeffSpec → List ℚ → List ℚ
  | .known _ :: rest, _ :: vs => unkRow rest vs
  | .unknown :: rest, v :: vs => v :: unkRow rest vs
  | _, _ => []

theorem unkRow_length : ∀ (spec : List CoeffSpec) (v : List ℚ),
    v.length = spec.length → (unkRow spec v).length = numUnknowns spec
  | [], [], _ => rfl
  | .known _ :: rest, _ :: vs, h => by
      simpa [unkRow, numUnknowns] using unkRow_length rest vs (by simpa using h)
  | .unknown :: rest, v :: vs, h => by
      simpa [unkRow, numUnknowns] using unkRow_length rest vs (by simpa using h)

theorem substCoeffs_of_no_unknowns : ∀ (spec : List CoeffSpec) (s : List ℚ),
    numUnknowns spec = 0 → substCoeffs spec s = knownVals spec
  | [], _, _ => rfl
  | .known c :: rest, s, h => by
      simp only [substCoeffs, knownVals]
      simp [substCoeffs_of_no_unknowns rest s (by simpa [numUnknowns] using h)]
  | .unknown :: rest, _, h => by
      simp [numUnknowns] at h

/-- Decomposition of a row's conserved-quantity balance into the known part
and the unknown part. -/
theorem dotQ_substCoeffs : ∀ (spec : List CoeffSpec) (v s : List ℚ),
    dotQ (substCoeffs spec s) v = knownDot spec v + dotQ (unkRow spec v) s
  | [], v, s => by cases v <;> simp [substCoeffs, knownDot, unkRow]
  | .known c :: rest, [], s => by simp [substCoeffs, knownDot, unkRow]
  | .unknown :: rest, [], s => by simp [substCoeffs, knownDot, unkRow]
  | .known c :: rest, v :: vs, s => by
      simp only [substCoeffs, knownDot, unkRow, dotQ_cons]
      have := dotQ_substCoeffs rest vs s
      linarith
  | .unknown :: rest, v :: vs, s => by
      cases s with
      | nil =>
          simp only [substCoeffs, knownDot, unkRow, dotQ_cons]
          have := dotQ_substCoeffs rest vs ([] : List ℚ)
          simp only [dotQ_nil_right] at this ⊢
          linarith
      | cons a as =>
          simp only [substCoeffs, knownDot, unkRow, dotQ_cons]
          have := dotQ_substCoeffs rest vs as
          linarith

/-! ## The conservation resolver (modelled from the spec) -/

/-- Errors of the conservation solve, per the specification's taxonomy. -/
inductive StoichError where
  | underdetermined
  | overdetermined
deriving DecidableEq, Repr

/-- Select the first equation whose leading coefficient is nonzero, returning
it together with the remaining equations. -/
def pickPivot : List (List ℚ × ℚ) → Option ((List ℚ × ℚ) × List (List ℚ × ℚ))
  | [] => none
  | e :: rest =>
      if e.1.headI = 0 then
        match pickPivot rest with
        | none => none
        | some (p, r) => some (p, e :: r)
      else some (e, rest)

theorem pickPivot_spec : ∀ (eqns : List (List ℚ × ℚ)) (p : List ℚ × ℚ)
    (rest : List (List ℚ × ℚ)), pickPivot eqns = some (p, rest) →
    p.1.headI ≠ 0 ∧ p ∈ eqns ∧ (∀ e ∈ eqns, e = p ∨ e ∈ rest) ∧
      (∀ e ∈ rest, e ∈ eqns) ∧ rest.length + 1 = eqns.length
  | [], p, rest, h => by simp [pickPivot] at h
  | e :: eqns, p, rest, h => by
      by_cases he : e.1.headI = 0
      · simp only [pickPivot, he, if_true] at h
        cases hrec : pickPivot eqns with
        | none => rw [hrec] at h; exact absurd h (by simp)
        | some pr =>
            obtain ⟨p', r'⟩ := pr
            rw [hrec] at h
            simp only [Option.some.injEq, Prod.mk.injEq] at h
            obtain ⟨rfl, rfl⟩ := h
            obtain ⟨h1, h2, h3, h4, h5⟩ := pickPivot_spec eqns p' r' hrec
            refine ⟨h1, List.mem_cons_of_mem _ h2, ?_, ?_, by simpa using h5⟩
            · intro x hx
              rcases List.mem_cons.mp hx with rfl | hx
              · exact Or.inr (List.mem_cons_self _ _)
              · rcases h3 x hx with h | h
                · exact Or.inl h
                · exact Or.inr (List.mem_cons_of_mem _ h)
            · intro x hx
              rcases List.mem_cons.mp hx with rfl | hx
              · exact List.mem_cons_self _ _
              · exact List.mem_cons_of_mem _ (h4 x hx)
      · simp only [pickPivot, he, if_false] at h
        simp only [Option.some.injEq, Prod.mk.injEq] at h
        obtain ⟨rfl, rfl⟩ := h
        refine ⟨he, List.mem_cons_self _ _, ?_, fun x hx => List.mem_cons_of_mem _ hx, rfl⟩
        intro x hx
        rcases List.mem_cons.mp hx with rfl | hx
        · exact Or.inl rfl
        · exact Or.inr hx

/-- Subtract `c` times the pivot coefficients from an equation's coefficients
(the first column, handled separately, is dropped). -/
def elimRowQ (c : ℚ) (pcs ecs : List ℚ) : List ℚ :=
  List.zipWith (fun pc ec => ec - c * pc) pcs ecs

theorem dotQ_elimRowQ (c : ℚ) : ∀ (pcs ecs s : List ℚ), pcs.length = ecs.length →
    dotQ (elimRowQ c pcs ecs) s = dotQ ecs s - c * dotQ pcs s
  | [], [], s, _ => by simp [elimRowQ]
  | pc :: pcs, ec :: ecs, s, h => by
      cases s with
      | nil => simp [elimRowQ]
      | cons v vs =>
          simp only [elimRowQ, List.zipWith_cons_cons, dotQ_cons]
          have := dotQ_elimRowQ c pcs ecs vs (by simpa using h)
          simp only [elimRowQ] at this
          ring_nf
          ring_nf at this
          linarith

theorem elimRowQ_length (c : ℚ) (pcs ecs : List ℚ) :
    (elimRowQ c pcs ecs).length = min pcs.length ecs.length := by
  simp [elimRowQ]

/-- One elimination step: normalize equation `e` against pivot `p` (whose
leading coefficient is `a`), producing an equation over the remaining
unknowns. -/
def elimStep (p : List ℚ × ℚ) (a : ℚ) (e : List ℚ × ℚ) : List ℚ × ℚ :=
  (elimRowQ (e.1.headI / a) p.1.tail e.1.tail, e.2 - e.1.headI / a * p.2)

/-- Gaussian elimination over ℚ for the conservation system, modelled from
the spec: `UnderdeterminedStoichiometryError` when an unknown is not pinned
down by the remaining equations (in particular when unknowns exceed
equations), `OverdeterminedStoichiometryError` when the equations are
inconsistent. -/
def solveLin : Nat → List (List ℚ × ℚ) → Except StoichError (List ℚ)
  | 0, eqns =>
      if ∀ e ∈ eqns, e.2 = 0 then .ok [] else .error .overdetermined
  | k + 1, eqns =>
      match pickPivot eqns with
      | none => .error .underdetermined
      | some (p, rest) =>
          match solveLin k (rest.map (elimStep p p.1.headI)) with
          | .ok s => .ok ((p.2 - dotQ p.1.tail s) / p.1.headI :: s)
          | .error e => .error e

theorem solveLin_sound : ∀ (k : Nat) (eqns : List (List ℚ × ℚ)) (s : List ℚ),
    solveLin k eqns = .ok s → (∀ e ∈ eqns, e.1.length = k) →
    ∀ e ∈ eqns, dotQ e.1 s = e.2
  | 0, eqns, s, hok, _, e, he => by
      simp only [solveLin] at hok
      by_cases hz : ∀ e ∈ eqns, e.2 = 0
      · rw [if_pos hz] at hok
        simp only [Except.ok.injEq] at hok
        subst hok
        rw [dotQ_nil_right]
        exact (hz e he).symm
      · rw [if_neg hz] at hok
        exact absurd hok (by simp)
  | k + 1, eqns, s, hok, hlen, e, he => by
      simp only [solveLin] at hok
      split at hok
      · exact absurd hok (by simp)
      · rename_i p rest hpick
        obtain ⟨ha, hpmem, hsplit, hrestmem, -⟩ := pickPivot_spec eqns p rest hpick
        split at hok
        · rename_i s' hrec
          simp only [Except.ok.injEq] at hok
          subst hok
          -- lengths: the pivot and each remaining equation have k+1 coefficients
          have hplen : p.1.length = k + 1 := hlen p hpmem
          obtain ⟨ph, pt, hp1⟩ : ∃ h t, p.1 = h :: t := by
            cases hq : p.1 with
            | nil => rw [hq] at hplen; simp at hplen
            | cons h t => exact ⟨h, t, rfl⟩
          have hph : p.1.headI = ph := by rw [hp1]; rfl
          have hpt : p.1.tail = pt := by rw [hp1]; rfl
          have hptlen : pt.length = k := by
            have := hplen; rw [hp1] at this; simpa using this
          have hlens' : ∀ e' ∈ rest.map (elimStep p p.1.headI), e'.1.length = k := by
            intro e' he'
            obtain ⟨e₀, he₀, rfl⟩ := List.mem_map.mp he'
            have h₀ : e₀.1.length = k + 1 := hlen e₀ (hrestmem e₀ he₀)
            simp only [elimStep, elimRowQ_length, hpt]
            have : e₀.1.tail.length = k := by
              cases hq : e₀.1 with
              | nil => rw [hq] at h₀; simp at h₀
              | cons h t => rw [hq] at h₀; simpa using h₀
            omega
          have IH := solveLin_sound k (rest.map (elimStep p p.1.headI)) s' hrec hlens'
          -- the pivot equation is satisfied
          have hpivot : dotQ p.1 ((p.2 - dotQ p.1.tail s') / p.1.headI :: s') = p.2 := by
            rw [hp1]
            have hph0 : ph ≠ 0 := by rwa [hph] at ha
            simp only [dotQ_cons, List.headI_cons, List.tail_cons]
            field_simp
          rcases hsplit e he with rfl | hemem
          · exact hpivot
          · -- an eliminated equation: recover the original balance
            have helen : e.1.length = k + 1 := hlen e (hrestmem e hemem)
            obtain ⟨eh, et, he1⟩ : ∃ h t, e.1 = h :: t := by
              cases hq : e.1 with
              | nil => rw [hq] at helen; simp at helen
              | cons h t => exact ⟨h, t, rfl⟩
            have hetlen : et.length = k := by
              have := helen; rw [he1] at this; simpa using this
            have hmem' : elimStep p p.1.headI e ∈ rest.map (elimStep p p.1.headI) :=
              List.mem_map_of_mem _ hemem
            have helim := IH _ hmem'
            simp only [elimStep, he1, hph, hpt] at helim
            simp only [List.tail_cons, List.headI_cons] at helim
            rw [dotQ_elimRowQ (eh / ph) pt et s' (by rw [hptlen, hetlen])] at helim
            have hph0 : ph ≠ 0 := by rwa [hph] at ha
            have hpivot' : ph * ((p.2 - dotQ pt s') / ph) + dotQ pt s' = p.2 := by
              field_simp
            rw [he1, dotQ_cons, hph, hpt]
            have expand : eh * ((p.2 - dotQ pt s') / ph)
                = eh / ph * p.2 - eh / ph * dotQ pt s' := by
              field_simp
              ring
            rw [expand]
            linarith
        · exact absurd hok (by simp)

/-- When the unknowns outnumber the equations the solve always fails with
the underdetermined error. -/
theorem solveLin_underdet : ∀ (k : Nat) (eqns : List (List ℚ × ℚ)),
    eqns.length < k → solveLin k eqns = .error .underdetermined
  | 0, eqns, h => absurd h (by omega)
  | k + 1, eqns, h => by
      simp only [solveLin]
      cases hpick : pickPivot eqns with
      | none => rfl
      | some pr =>
          obtain ⟨p, rest⟩ := pr
          obtain ⟨-, -, -, -, hlen⟩ := pickPivot_spec eqns p rest hpick
          have : (rest.map (elimStep p p.1.headI)).length < k := by
            simp only [List.length_map]; omega
          simp only [solveLin_underdet k _ this]

/-- A process row as fed to the compiler: the coefficient template (literal
values and `?` placeholders, one entry per component in registry order) and,
for each conserved quantity the row is declared `conserved_for`, the vector
of per-component conversion factors. -/
structure ProcRow where
  spec : List CoeffSpec
  conserved : List (List ℚ)
deriving DecidableEq, Repr

/-- The linear system of conservation equations of one row, in the row's
`?` unknowns. Modelled from the spec: one equation per conserved quantity,
sum over components of coefficient times conversion factor equals zero. -/
def rowEqns (r : ProcRow) : List (List ℚ × ℚ) :=
  r.conserved.map (fun q => (unkRow r.spec q, -knownDot r.spec q))

/-- Modelled from the spec: the ConservationResolver. Solves the row's `?`
coefficients from its conservation equations and substitutes them, yielding
the row's numeric coefficient vector. -/
def resolveRow (r : ProcRow) : Except StoichError (List ℚ) :=
  match solveLin (numUnknowns r.spec) (rowEqns r) with
  | .ok s => .ok (substCoeffs r.spec s)
  | .error e => .error e

/-- Modelled from the spec: `Processes.compile`. Resolves every row in order
into the dense stoichiometry matrix (rows = processes, columns = components).
-/
def compileCollection : List ProcRow → Except StoichError (List (List ℚ))
  | [] => .ok []
  | r :: rest =>
      match resolveRow r, compileCollection rest with
      | .ok c, .ok M => .ok (c :: M)
      | .error e, _ => .error e
      | .ok _, .error e => .error e

/-- `Processes.extend`: append already-built process rows to the collection
before the final compile (the pattern used by `CANDO3.__new__`). -/
def extendRows (base more : List ProcRow) : List ProcRow := base ++ more

/-- Resolved rows satisfy every one of their conservation equations. -/
theorem resolveRow_sound (r : ProcRow) (coeffs : List ℚ)
    (hok : resolveRow r = .ok coeffs)
    (hlen : ∀ q ∈ r.conserved, q.length = r.spec.length) :
    ∀ q ∈ r.conserved, dotQ coeffs q = 0 := by
  intro q hq
  unfold resolveRow at hok
  cases hrec : solveLin (numUnknowns r.spec) (rowEqns r) with
  | error e => rw [hrec] at hok; exact absurd hok (by simp)
  | ok s =>
      rw [hrec] at hok
      simp only [Except.ok.injEq] at hok
      subst hok
      have hlens : ∀ e ∈ rowEqns r, e.1.length = numUnknowns r.spec := by
        intro e he
        obtain ⟨q', hq', rfl⟩ := List.mem_map.mp he
        exact unkRow_length r.spec q' (hlen q' hq')
      have hmem : (unkRow r.spec q, -knownDot r.spec q) ∈ rowEqns r :=
        List.mem_map_of_mem _ hq
      have := solveLin_sound (numUnknowns r.spec) (rowEqns r) s hrec hlens _ hmem
      rw [dotQ_substCoeffs r.spec q s]
      simp only at this
      linarith

theorem compileCollection_length : ∀ (rows : List ProcRow) (M : List (List ℚ)),
    compileCollection rows = .ok M → M.length = rows.length
  | [], M, h => by
      simp only [compileCollection, Except.ok.injEq] at h
      subst h; rfl
  | r :: rest, M, h => by
      simp only [compileCollection] at h
      cases h1 : resolveRow r with
      | error e => rw [h1] at h; exact absurd h (by simp)
      | ok c =>
          cases h2 : compileCollection rest with
          | error e => rw [h1, h2] at h; exact absurd h (by simp)
          | ok M' =>
              rw [h1, h2] at h
              simp only [Except.ok.injEq] at h
              subst h
              simpa using compileCollection_length rest M' h2

theorem compileCollection_append : ∀ (a b : List ProcRow) (M : List (List ℚ)),
    compileCollection (a ++ b) = .ok M →
    ∃ Ma Mb, compileCollection a = .ok Ma ∧ compileCollection b = .ok Mb ∧
      M = Ma ++ Mb
  | [], b, M, h => ⟨[], M, rfl, by simpa using h, by simp⟩
  | r :: a, b, M, h => by
      simp only [List.cons_append, compileCollection, List.append_eq] at h
      cases h1 : resolveRow r with
      | error e => rw [h1] at h; exact absurd h (by simp)
      | ok c =>
          cases h2 : compileCollection (a ++ b) with
          | error e => rw [h1, h2] at h; exact absurd h (by simp)
          | ok M' =>
              rw [h1, h2] at h
              simp only [Except.ok.injEq] at h
              subst h
              obtain ⟨Ma, Mb, ha, hb, rfl⟩ := compileCollection_append a b M' h2
              refine ⟨c :: Ma, Mb, ?_, hb, by simp⟩
              simp only [compileCollection, h1, ha]

/-- Every row of a compiled collection pairs with its source row so that all
declared conservation equations hold. -/
theorem compileCollection_sound : ∀ (rows : List ProcRow) (M : List (List ℚ)),
    compileCollection rows = .ok M →
    (∀ r ∈ rows, ∀ q ∈ r.conserved, q.length = r.spec.length) →
    List.Forall₂ (fun (r : ProcRow) (c : List ℚ) => ∀ q ∈ r.conserved, dotQ c q = 0) rows M
  | [], M, h, _ => by
      simp only [compileCollection, Except.ok.injEq] at h
      subst h; exact List.Forall₂.nil
  | r :: rest, M, h, hlen => by
      simp only [compileCollection] at h
      cases h1 : resolveRow r with
      | error e => rw [h1] at h; exact absurd h (by simp)
      | ok c =>
          cases h2 : compileCollection rest with
          | error e => rw [h1, h2] at h; exact absurd h (by simp)
          | ok M' =>
              rw [h1, h2] at h
              simp only [Except.ok.injEq] at h
              subst h
              exact List.Forall₂.cons
                (resolveRow_sound r c h1 (hlen r (List.mem_cons_self _ _)))
                (compileCollection_sound rest M' h2
                  (fun r' hr' => hlen r' (List.mem_cons_of_mem _ hr')))

/-! ## Example rows for the resolver -/

/-- The spec's example template: `S_NO3 + [?]S_N2 -> ...` over the two
nitrogen-bearing components S_NO3 (consumed, coefficient -1, measured as N so
its N conversion factor is 1) and S_N2 (the `?`), with conserved quantity
set {N}. -/
def exampleNRow : ProcRow :=
  { spec := [.known (-1), .unknown], conserved := [[1, 1]] }

/-- A row whose two conservation equations are mutually inconsistent:
x = -1 from the first and x = -2 from the second. -/
def overdetNRow : ProcRow :=
  { spec := [.known 1, .unknown], conserved := [[1, 1], [2, 1]] }

/-- A row with two `?` placeholders but only one conservation equation. -/
def underNRow : ProcRow :=
  { spec := [.unknown, .unknown], conserved := [[1, 1]] }

/-! ## Claim C1 -/

/-- C1: for every compiled ProcessCollection, every row of the resulting
stoichiometry matrix satisfies each conserved-quantity equation declared for
that row (sum over components of coefficient times the component's
per-quantity conversion factor equals zero) for every quantity in its
conserved_for set. -/
theorem C1_conservation_post_compile (rows : List ProcRow) (M : List (List ℚ))
    (hc : compileCollection rows = .ok M)
    (hlen : ∀ r ∈ rows, ∀ q ∈ r.conserved, q.length = r.spec.length) :
    List.Forall₂ (fun (r : ProcRow) (c : List ℚ) => ∀ q ∈ r.conserved, dotQ c q = 0)
      rows M :=
  compileCollection_sound rows M hc hlen

/-- Witness for C1 at a concrete one-row collection. -/
theorem C1_conservation_post_compile_witness :
    List.Forall₂ (fun (r : ProcRow) (c : List ℚ) => ∀ q ∈ r.conserved, dotQ c q = 0)
      [exampleNRow] [[-1, 1]] :=
  C1_conservation_post_compile [exampleNRow] [[-1, 1]]
    (by norm_num [compileCollection, resolveRow, exampleNRow, rowEqns, solveLin,
      pickPivot, numUnknowns, unkRow, knownDot, substCoeffs, elimStep, elimRowQ, dotQ])
    (by
      intro r hr
      simp only [List.mem_singleton] at hr
      subst hr
      intro q hq
      simp only [exampleNRow, List.mem_singleton] at hq
      subst hq
      rfl)

/-! ## Claim C2 -/

/-- C2: compilation solves each `?` placeholder to exactly the unique value
balancing every declared conserved quantity (for the `{N}` example with one
unknown, 1 mol NO3-N consumed yields exactly 1 mol N2-N produced); it fails
with the underdetermined error when unknowns exceed equations and with the
overdetermined error when no solution satisfies all constraints. -/
theorem C2_placeholder_resolution :
    (resolveRow exampleNRow = .ok [-1, 1]) ∧
    (∀ x : ℚ, dotQ [-1, x] [1, 1] = 0 ↔ x = 1) ∧
    (∀ r : ProcRow, r.conserved.length < numUnknowns r.spec →
      resolveRow r = .error .underdetermined) ∧
    (resolveRow overdetNRow = .error .overdetermined) := by
  refine ⟨?_, ?_, ?_, ?_⟩
  · norm_num [resolveRow, exampleNRow, rowEqns, solveLin, pickPivot, numUnknowns,
      unkRow, knownDot, substCoeffs, elimStep, elimRowQ, dotQ]
  · intro x
    constructor
    · intro h
      simp only [dotQ_cons, dotQ_nil_left] at h
      linarith
    · rintro rfl
      norm_num [dotQ]
  · intro r h
    have hlen : (rowEqns r).length < numUnknowns r.spec := by
      simpa [rowEqns] using h
    simp only [resolveRow, solveLin_underdet _ _ hlen]
  · norm_num [resolveRow, overdetNRow, rowEqns, solveLin, pickPivot, numUnknowns,
      unkRow, knownDot, substCoeffs, elimStep, elimRowQ, dotQ]

/-- Witness for C2: the underdetermined branch fired at a concrete row with
two placeholders and one conservation equation. -/
theorem C2_placeholder_resolution_witness :
    resolveRow underNRow = .error .underdetermined :=
  C2_placeholder_resolution.2.2.1 underNRow
    (by norm_num [underNRow, numUnknowns])

/-! ## Claim C6 -/

theorem resolveRow_no_unknowns (p : ProcRow) (c : List ℚ)
    (h0 : numUnknowns p.spec = 0) (h : resolveRow p = .ok c) :
    c = knownVals p.spec := by
  unfold resolveRow at h
  cases hr : solveLin (numUnknowns p.spec) (rowEqns p) with
  | error e => rw [hr] at h; exact absurd h (by simp)
  | ok s =>
      rw [hr] at h
      simp only [Except.ok.injEq] at h
      subst h
      exact substCoeffs_of_no_unknowns _ _ h0

theorem compileCollection_cons (r : ProcRow) (rest : List ProcRow)
    (M : List (List ℚ)) (h : compileCollection (r :: rest) = .ok M) :
    ∃ c M', resolveRow r = .ok c ∧ compileCollection rest = .ok M' ∧ M = c :: M' := by
  simp only [compileCollection] at h
  cases h1 : resolveRow r with
  | error e => rw [h1] at h; exact absurd h (by simp)
  | ok c =>
      cases h2 : compileCollection rest with
      | error e => rw [h1, h2] at h; exact absurd h (by simp)
      | ok M' =>
          rw [h1, h2] at h
          simp only [Except.ok.injEq] at h
          exact ⟨c, M', rfl, rfl, h.symm⟩

/-- An already-built process row appended by `extend` before compile: its
coefficients are all literal (no `?` placeholders), balanced over {N}. -/
def builtRowA : ProcRow :=
  { spec := [.known 1, .known (-1)], conserved := [[1, 1]] }

/-- A second already-built process row for the extend scenario. -/
def builtRowB : ProcRow :=
  { spec := [.known 2, .known (-2)], conserved := [[1, 1]] }

/-- C6: for a collection built from n template rows, appending two
already-built Process rows via extend and compiling yields a stoichiometry
matrix with exactly n + 2 rows, in which the two appended rows' coefficients
appear unchanged (as exercised by CANDO3 appending `_p12` and `_p14`). -/
theorem C6_extend_preserves_rows (ts : List ProcRow) (p1 p2 : ProcRow)
    (M : List (List ℚ))
    (h1 : numUnknowns p1.spec = 0) (h2 : numUnknowns p2.spec = 0)
    (hc : compileCollection (extendRows ts [p1, p2]) = .ok M) :
    M.length = ts.length + 2 ∧
      M.drop ts.length = [knownVals p1.spec, knownVals p2.spec] := by
  obtain ⟨Ma, Mb, hca, hcb, rfl⟩ := compileCollection_append ts [p1, p2] M hc
  have hMa : Ma.length = ts.length := compileCollection_length _ _ hca
  obtain ⟨c1, M1, hr1, hc1, rfl⟩ := compileCollection_cons p1 [p2] Mb hcb
  obtain ⟨c2, M2, hr2, hc2, rfl⟩ := compileCollection_cons p2 [] M1 hc1
  have hM2 : M2 = [] := by
    simp only [compileCollection, Except.ok.injEq] at hc2
    exact hc2.symm
  subst hM2
  have e1 : c1 = knownVals p1.spec := resolveRow_no_unknowns p1 c1 h1 hr1
  have e2 : c2 = knownVals p2.spec := resolveRow_no_unknowns p2 c2 h2 hr2
  subst e1
  subst e2
  constructor
  · simp [hMa]
  · rw [← hMa, List.drop_left]

/-- Witness for C6 at a concrete collection: one template row plus the two
built rows. -/
theorem C6_extend_preserves_rows_witness :
    ([[-1, 1], [1, -1], [2, -2]] : List (List ℚ)).length = [exampleNRow].length + 2 ∧
      ([[-1, 1], [1, -1], [2, -2]] : List (List ℚ)).drop [exampleNRow].length
        = [knownVals builtRowA.spec, knownVals builtRowB.spec] :=
  C6_extend_preserves_rows [exampleNRow] builtRowA builtRowB _
    (by norm_num [builtRowA, numUnknowns])
    (by norm_num [builtRowB, numUnknowns])
    (by norm_num [extendRows, compileCollection, resolveRow, exampleNRow, builtRowA,
      builtRowB, rowEqns, solveLin, pickPivot, numUnknowns, unkRow, knownDot,
      substCoeffs, elimStep, elimRowQ, dotQ])

/-! ## Parameter tables and set_parameters (C4) -/

/-- The error raised for an unrecognized parameter name. -/
inductive ParamErr where
  | unknownParameter
deriving DecidableEq, Repr

/-- Overwrite the value of key `k` in a parameter table. -/
def setEntry (t : List (String × ℚ)) (k : String) (v : ℚ) : List (String × ℚ) :=
  t.map (fun e => if e.1 = k then (k, v) else e)

/-- Modelled from the spec: `Processes.set_parameters(name=value, ...)`.
All names are validated against the declared parameter set before any entry
is written, so an unrecognized name leaves the table exactly as it was
(no partial mutation) and reports `UnknownParameterError`. -/
def set_parameters (known : List String) (updates : List (String × ℚ))
    (table : List (String × ℚ)) : List (String × ℚ) × Option ParamErr :=
  if updates.all (fun u => known.contains u.1) then
    (updates.foldl (fun t u => setEntry t u.1 u.2) table, none)
  else (table, some .unknownParameter)

/-- The parameter set declared by `Sharon._params` in the source. -/
def Sharon_params : List String :=
  ["Y_PO4", "Y_PHA", "Y_DPAO_NOx", "i_P_BM", "i_P_XI", "f_1", "q_PSA",
   "K_S_DPAO", "K_PP_DPAO", "q_PP", "K_PO4_PP", "K_PHA", "K_max_DPAO",
   "K_iPP_DPAO", "K_DPAO_PO4", "mu_DPAO1", "mu_DPAO2", "mu_DPAO3",
   "mu_DPAO4", "K_NO3", "K_NO2", "K_NO2", "K_NO", "K_N2O", "b_DPAO",
   "b_PP", "b_PHA", "K_NOx"]

/-- The name/value pairs `Sharon.__new__` passes to `set_parameters`, at the
constructor's default values. -/
def Sharon_updates : List (String × ℚ) :=
  [("Y_1", 0.15), ("Y_2", 0.041), ("Y_3", 0.123), ("Y_4", 0.131),
   ("Y_5", 0.223), ("n_amm", 0.114), ("n_nit", 0.114), ("n_het", 0.114),
   ("h_amm", 0.073), ("h_nit", 0.073), ("h_het", 0.325), ("o_amm", 0.325),
   ("o_nit", 0.325), ("o_het", 0.325), ("mu_amm_max", 2.1),
   ("mu_nit_max", 1.05), ("mu_dNO2_max", 1.5), ("mu_dNO3_max", 1.5),
   ("mu_met_max", 2.5), ("K_amm_nh3", 0.972), ("K_I_amm_HNO2", 8.862),
   ("K_amm_O2", 0.4704), ("K_nit_HNO2", 0.893), ("K_nit_O2", 0.544),
   ("K_dNO2_NO2", 0.391), ("K_hetan_CH3OH", 16.672), ("K_I_O2", 0.1008),
   ("K_dNO3_NO3", 0.62), ("K_hetox_CH3OH", 66.656), ("K_het_O2", 0.04)]

/-! ## Claim C4 -/

/-- C4: any `set_parameters` call containing an unrecognized name raises
`UnknownParameterError` and leaves the parameter table exactly as it was
(no partial mutation, never a silent no-op); in particular, `Sharon.__new__`
declares `Sharon._params` and then calls `set_parameters` with names
(`Y_1`, `mu_amm_max`, `K_amm_nh3`, ...) outside that set, so that call
errors for every table. -/
theorem C4_set_parameters_atomic :
    (∀ (known : List String) (updates : List (String × ℚ))
        (table : List (String × ℚ)),
      (∃ u ∈ updates, known.contains u.1 = false) →
      set_parameters known updates table = (table, some .unknownParameter)) ∧
    (∃ u ∈ Sharon_updates, Sharon_params.contains u.1 = false) ∧
    (∀ table : List (String × ℚ),
      set_parameters Sharon_params Sharon_updates table
        = (table, some .unknownParameter)) := by
  have hbad : ∀ (known : List String) (updates : List (String × ℚ))
      (table : List (String × ℚ)),
      (∃ u ∈ updates, known.contains u.1 = false) →
      set_parameters known updates table = (table, some .unknownParameter) := by
    intro known updates table ⟨u, hu, hfalse⟩
    have hall : updates.all (fun u => known.contains u.1) = false := by
      rcases hcase : updates.all (fun u => known.contains u.1) with _ | _
      · rfl
      · have := List.all_eq_true.mp hcase u hu
        rw [hfalse] at this
        exact absurd this (by simp)
    simp only [set_parameters, hall, Bool.false_eq_true, if_false]
  have hsharon : ∃ u ∈ Sharon_updates, Sharon_params.contains u.1 = false :=
    ⟨(("Y_1"), (0.15 : ℚ)), by simp [Sharon_updates], by decide⟩
  exact ⟨hbad, hsharon, fun table => hbad _ _ table hsharon⟩

/-- Witness for C4 at a concrete table and update list. -/
theorem C4_set_parameters_atomic_witness :
    set_parameters Sharon_params Sharon_updates [(("Y_PO4"), (0.3 : ℚ))]
      = ([(("Y_PO4"), (0.3 : ℚ))], some .unknownParameter) :=
  C4_set_parameters_atomic.1 Sharon_params Sharon_updates _
    ⟨(("Y_1"), (0.15 : ℚ)), by simp [Sharon_updates], by decide⟩

/-! ## Claim C7 -/

/-- The piece of shared component state mutated by `CANDO.__new__` before
compiling: `cmps.X_I.i_mass` (set to `fr_SS_COD`, then
`refresh_constants()` realigns the conversion factors with it). -/
structure CmpsState where
  xI_iMass : ℚ
deriving DecidableEq, Repr

/-- The freshly initialized parameter table produced by
`load_from_file(parameters=...)`: one entry per declared name. -/
def initTable (params : List String) : List (String × ℚ) :=
  params.map (fun n => (n, 0))

/-- Modelled from the spec: the `CANDO.__new__` compile pipeline
(`load_from_file` + `compile` + `set_parameters`). The template rows and
their conversion factors are a function of the shared component state,
which the pipeline first overwrites with the caller's `fr_SS_COD`; it then
compiles the rows and applies `set_parameters` to the freshly initialized
table. Returns the matrix, the parameter table (with error flag), and
the component state left behind for the next run. -/
def CANDO_pipeline (templates : ℚ → List ProcRow) (fr_SS_COD : ℚ)
    (params : List String) (updates : List (String × ℚ)) (σ : CmpsState) :
    Except StoichError (List (List ℚ))
      × (List (String × ℚ) × Option ParamErr) × CmpsState :=
  let σ2 : CmpsState := { xI_iMass := fr_SS_COD }
  (compileCollection (templates σ2.xI_iMass),
   set_parameters params updates (initTable params), σ2)

/-- C7: compilation is deterministic and idempotent: for a fixed template
input and parameter set, the pipeline's matrix and parameter table do not
depend on the prior shared component state, and running the pipeline a
second time from the state left by the first run reproduces the first
run's matrix, parameter table and state exactly. -/
theorem C7_compile_idempotent (templates : ℚ → List ProcRow) (fr : ℚ)
    (params : List String) (updates : List (String × ℚ)) (σ σ' : CmpsState) :
    CANDO_pipeline templates fr params updates σ
        = CANDO_pipeline templates fr params updates σ' ∧
    CANDO_pipeline templates fr params updates
        (CANDO_pipeline templates fr params updates σ).2.2
      = CANDO_pipeline templates fr params updates σ :=
  ⟨rfl, rfl⟩

/-! ## AnaerobicBaffledReactor._run (qsdsan/sanunits/_anaerobic_reactors.py) -/

/-- The slice of a WasteStream touched by `AnaerobicBaffledReactor._run`:
per-component masses [kg/hr] (NH3 and NonNH3 are the stream's nitrogen
pools, expressed as N), the cached `_COD` concentration [g/m3], the
computed `COD` property used as fallback when the cache is falsy, the
volumetric flow `F_vol` [m3/hr] and the total nitrogen `TN` [g/m3]. -/
structure WS where
  nh3 : ℚ
  nonnh3 : ℚ
  otherSS : ℚ
  ch4 : ℚ
  n2o : ℚ
  codConc : ℚ
  codProp : ℚ
  fvol : ℚ
  tn : ℚ
deriving DecidableEq, Repr

/-- The unit parameters `AnaerobicBaffledReactor._run` reads (loaded from
the unit's data table and its constructor flags). -/
structure ABRParams where
  codRemoval : ℚ
  nRemoval : ℚ
  mcfDecay : ℚ
  maxCH4 : ℚ
  nMaxDecay : ℚ
  n2oEF : ℚ
  ifCaptureBiogas : Bool
  ifN2O : Bool
deriving DecidableEq, Repr

/-- Modelled from the spec (`Decay.allocate_N_removal` is not in the
snippet set): split a total nitrogen removal between the preferred NH3 pool
and the NonNH3 pool, drawing from NH3 first. -/
def allocate_N_removal (tot preferredN : ℚ) : ℚ × ℚ :=
  if tot ≤ preferredN then (tot, 0) else (preferredN, tot - preferredN)

/-- The outled streams written by `AnaerobicBaffledReactor._run`: the
treated stream, the captured-biogas CH4 mass, the fugitive CH4 mass and
the fugitive N2O mass [kg/hr]. -/
structure ABROut where
  treated : WS
  biogasCH4 : ℚ
  fugitiveCH4 : ℚ
  n2oOut : ℚ
deriving DecidableEq, Repr

/-- `AnaerobicBaffledReactor._run`, embedded line by line: `treated`
copies the inlet; `_COD = waste._COD or waste.COD`;
`COD_deg = _COD*F_vol/1e3*COD_removal`; the cached `_COD` and the
degraded components' masses are scaled by `(1 - COD_removal)`;
`CH4_prcd = COD_deg*MCF_decay*max_CH4_emission` goes to the biogas outlet
when `if_capture_biogas` else to the fugitive CH4 outlet;
`N_loss_tot = TN/1e3*F_vol*N_removal` is split by `allocate_N_removal`
and subtracted from NH3/NonNH3; N2O is emitted only when
`if_N2O_emission`, as `N_loss_tot*N_max_decay*N2O_EF_decay*44/28`. -/
def ABR_run (u : ABRParams) (waste : WS) : ABROut :=
  let cod := if waste.codConc = 0 then waste.codProp else waste.codConc
  let codDeg := cod * waste.fvol / 1000 * u.codRemoval
  let ch4Prcd := codDeg * u.mcfDecay * u.maxCH4
  let nLossTot := waste.tn / 1000 * waste.fvol * u.nRemoval
  let alloc := allocate_N_removal nLossTot waste.nh3
  { treated := { waste with
      codConc := waste.codConc * (1 - u.codRemoval)
      otherSS := waste.otherSS * (1 - u.codRemoval)
      nh3 := waste.nh3 - alloc.1
      nonnh3 := waste.nonnh3 - alloc.2 }
    biogasCH4 := if u.ifCaptureBiogas then ch4Prcd else 0
    fugitiveCH4 := if u.ifCaptureBiogas then 0 else ch4Prcd
    n2oOut := if u.ifN2O then nLossTot * u.nMaxDecay * u.n2oEF * 44 / 28 else 0 }

/-! ## ElectroChemCell._run (qsdsan/sanunits/_electrochemical_cell.py) -/

/-- Pointwise update of a per-component mass function. -/
def updFn (f : String → ℚ) (k : String) (v : ℚ) : String → ℚ :=
  fun x => if x = k then v else f x

/-- First-match lookup in a recovery/removal mapping (Python dict). -/
def lookupQ (c : String) : List (String × ℚ) → Option ℚ
  | [] => none
  | (k, v) :: rest => if c = k then some v else lookupQ c rest

/-- One loop of `ElectroChemCell._run`: for each `(chemical, ratio)` entry,
write `mixture.imass[chemical]*ratio` into the output stream and subtract
the same amount from the `left` stream. -/
def ecc_phase (mix : String → ℚ) :
    List (String × ℚ) → (String → ℚ) × (String → ℚ) → (String → ℚ) × (String → ℚ)
  | [], acc => acc
  | (c, r) :: rest, (out, left) =>
      ecc_phase mix rest (updFn out c (mix c * r), updFn left c (left c - mix c * r))

theorem lookupQ_eq_none : ∀ (l : List (String × ℚ)) (c : String),
    c ∉ l.map Prod.fst → lookupQ c l = none
  | [], _, _ => rfl
  | (k, v) :: rest, c, h => by
      simp only [List.map_cons, List.mem_cons] at h
      push_neg at h
      simp only [lookupQ, if_neg h.1]
      exact lookupQ_eq_none rest c h.2

theorem ecc_phase_not_mem (mix : String → ℚ) :
    ∀ (l : List (String × ℚ)) (out left : String → ℚ) (c : String),
    lookupQ c l = none →
    (ecc_phase mix l (out, left)).1 c = out c ∧
      (ecc_phase mix l (out, left)).2 c = left c
  | [], out, left, c, _ => ⟨rfl, rfl⟩
  | (k, v) :: rest, out, left, c, h => by
      simp only [lookupQ] at h
      by_cases hc : c = k
      · rw [if_pos hc] at h
        exact absurd h (by simp)
      · rw [if_neg hc] at h
        have := ecc_phase_not_mem mix rest
          (updFn out k (mix k * v)) (updFn left k (left k - mix k * v)) c h
        simpa [ecc_phase, updFn, hc] using this

theorem ecc_phase_eval (mix : String → ℚ) :
    ∀ (l : List (String × ℚ)) (out left : String → ℚ) (c : String) (r : ℚ),
    (l.map Prod.fst).Nodup → lookupQ c l = some r →
    (ecc_phase mix l (out, left)).1 c = mix c * r ∧
      (ecc_phase mix l (out, left)).2 c = left c - mix c * r
  | [], out, left, c, r, _, h => by simp [lookupQ] at h
  | (k, v) :: rest, out, left, c, r, hnd, h => by
      simp only [List.map_cons, List.nodup_cons] at hnd
      simp only [lookupQ] at h
      by_cases hc : c = k
      · rw [if_pos hc] at h
        simp only [Option.some.injEq] at h
        subst h
        subst hc
        have hnone : lookupQ c rest = none := lookupQ_eq_none rest c hnd.1
        have := ecc_phase_not_mem mix rest
          (updFn out c (mix c * v)) (updFn left c (left c - mix c * v)) c hnone
        simpa [ecc_phase, updFn] using this
      · rw [if_neg hc] at h
        have := ecc_phase_eval mix rest
          (updFn out k (mix k * v)) (updFn left k (left k - mix k * v)) c r hnd.2 h
        simpa [ecc_phase, updFn, hc] using this

/-- The three outlet streams of `ElectroChemCell._run`. -/
structure ECCOut where
  recovered : String → ℚ
  removed : String → ℚ
  left : String → ℚ

/-- `ElectroChemCell._run`, embedded: the two inlets are mixed
(`mixture.mix_from(self.ins)`, per-component mass addition), `left` starts
as a copy of the mixture, then the recovery loop fills the `recovered`
outlet and the removal loop fills the `removed` outlet, each subtracting
from `left` the mixture mass times the ratio. -/
def ECC_run (recovery removal : List (String × ℚ)) (in1 in2 : String → ℚ) :
    ECCOut :=
  let mix : String → ℚ := fun c => in1 c + in2 c
  let p1 := ecc_phase mix recovery (fun _ => 0, mix)
  let p2 := ecc_phase mix removal (fun _ => 0, p1.2)
  { recovered := p1.1, removed := p2.1, left := p2.2 }

/-! ## Claim C9 -/

/-- An inlet carrying 10 kg/hr of NH3 and nothing else. -/
def overIn : String → ℚ := fun c => if c = ("NH3" : String) then 10 else 0

/-- An empty second inlet. -/
def zeroIn : String → ℚ := fun _ => 0

/-- C9: after `ElectroChemCell._run`, a component in both mappings splits
the mixed inlet mass as recovery[c], removal[c] and 1 - recovery[c] -
removal[c] across the three outlets; components in neither mapping pass
through to `left` unchanged; and nothing prevents recovery[c] +
removal[c] > 1, in which case the `left` mass of c goes negative. -/
theorem C9_ecc_split (recovery removal : List (String × ℚ))
    (in1 in2 : String → ℚ)
    (hnr : (recovery.map Prod.fst).Nodup) (hnm : (removal.map Prod.fst).Nodup) :
    (∀ c r m, lookupQ c recovery = some r → lookupQ c removal = some m →
      (ECC_run recovery removal in1 in2).recovered c = (in1 c + in2 c) * r ∧
      (ECC_run recovery removal in1 in2).removed c = (in1 c + in2 c) * m ∧
      (ECC_run recovery removal in1 in2).left c
        = (in1 c + in2 c) * (1 - r - m)) ∧
    (∀ c, lookupQ c recovery = none → lookupQ c removal = none →
      (ECC_run recovery removal in1 in2).recovered c = 0 ∧
      (ECC_run recovery removal in1 in2).removed c = 0 ∧
      (ECC_run recovery removal in1 in2).left c = in1 c + in2 c) ∧
    (ECC_run [(("NH3"), (0.8 : ℚ))] [(("NH3"), (0.5 : ℚ))] overIn zeroIn).left
      ("NH3") < 0 := by
  refine ⟨?_, ?_, ?_⟩
  · intro c r m hr hm
    have h1 := ecc_phase_eval (fun c => in1 c + in2 c) recovery
      (fun _ => 0) (fun c => in1 c + in2 c) c r hnr hr
    have h2 := ecc_phase_eval (fun c => in1 c + in2 c) removal
      (fun _ => 0)
      ((ecc_phase (fun c => in1 c + in2 c) recovery
        (fun _ => 0, fun c => in1 c + in2 c)).2) c m hnm hm
    simp only [ECC_run]
    refine ⟨h1.1, h2.1, ?_⟩
    rw [h2.2, h1.2]
    ring
  · intro c hr hm
    have h1 := ecc_phase_not_mem (fun c => in1 c + in2 c) recovery
      (fun _ => 0) (fun c => in1 c + in2 c) c hr
    have h2 := ecc_phase_not_mem (fun c => in1 c + in2 c) removal
      (fun _ => 0)
      ((ecc_phase (fun c => in1 c + in2 c) recovery
        (fun _ => 0, fun c => in1 c + in2 c)).2) c hm
    simp only [ECC_run]
    exact ⟨h1.1, h2.1, by rw [h2.2, h1.2]⟩
  · norm_num [ECC_run, ecc_phase, updFn, overIn, zeroIn]

/-- Witness for C9 at concrete mappings and inlets. -/
theorem C9_ecc_split_witness :
    (ECC_run [(("NH3"), (0.6 : ℚ))] [(("NH3"), (0.2 : ℚ))] overIn zeroIn).recovered
        ("NH3") = (overIn ("NH3") + zeroIn ("NH3")) * 0.6 ∧
    (ECC_run [(("NH3"), (0.6 : ℚ))] [(("NH3"), (0.2 : ℚ))] overIn zeroIn).removed
        ("NH3") = (overIn ("NH3") + zeroIn ("NH3")) * 0.2 ∧
    (ECC_run [(("NH3"), (0.6 : ℚ))] [(("NH3"), (0.2 : ℚ))] overIn zeroIn).left
        ("NH3") = (overIn ("NH3") + zeroIn ("NH3")) * (1 - 0.6 - 0.2) :=
  (C9_ecc_split [(("NH3"), (0.6 : ℚ))] [(("NH3"), (0.2 : ℚ))] overIn zeroIn
      (by simp) (by simp)).1 ("NH3") 0.6 0.2 (by simp [lookupQ]) (by simp [lookupQ])

/-! ## Claim C5 -/

/-- Inlet stream for the C5 counterexample: 10 kg/hr NH3-N and 10 kg/hr
NonNH3-N (TN = 20000 g/m3 at 1 m3/hr, consistent with those masses). -/
def cexWaste : WS :=
  { nh3 := 10, nonnh3 := 10, otherSS := 0, ch4 := 0, n2o := 0,
    codConc := 0, codProp := 0, fvol := 1, tn := 20000 }

/-- Unit configuration for the C5 counterexample: half the nitrogen is
removed, N2O emission switched on with the usual fractional factors. -/
def cexABR : ABRParams :=
  { codRemoval := 0, nRemoval := 0.5, mcfDecay := 0, maxCH4 := 0,
    nMaxDecay := 0.8, n2oEF := 0.01, ifCaptureBiogas := true, ifN2O := true }

/-- C5 counterexample: `AnaerobicBaffledReactor._run` does not balance
nitrogen: of the 10 kg/hr N it removes, only
`N_loss_tot*N_max_decay*N2O_EF_decay` reappears as N2O-N (0.08 kg/hr
here), so outlet nitrogen (10.08) differs from inlet nitrogen (20). -/
theorem C5_counterexample :
    (ABR_run cexABR cexWaste).treated.nh3 + (ABR_run cexABR cexWaste).treated.nonnh3
        + (ABR_run cexABR cexWaste).n2oOut * 28 / 44
      ≠ cexWaste.nh3 + cexWaste.nonnh3 := by
  norm_num [ABR_run, allocate_N_removal, cexABR, cexWaste]

/-- C5 (amended): the unit-level mass balance holds for
`ElectroChemCell._run` — for every component, the three outlets together
carry exactly the mixed inlet mass — while `AnaerobicBaffledReactor._run`
preserves the component masses it touches only in the degenerate case of
zero COD and zero N removal; its removed N and degraded COD are not matched
by the modeled CH4/N2O exports. -/
theorem C5_amended_mass_balance :
    (∀ (recovery removal : List (String × ℚ)) (in1 in2 : String → ℚ)
        (c : String),
      (recovery.map Prod.fst).Nodup → (removal.map Prod.fst).Nodup →
      (ECC_run recovery removal in1 in2).recovered c
          + (ECC_run recovery removal in1 in2).removed c
          + (ECC_run recovery removal in1 in2).left c = in1 c + in2 c) ∧
    (∀ (u : ABRParams) (waste : WS), u.codRemoval = 0 → u.nRemoval = 0 →
      (ABR_run u waste).treated.nh3 + (ABR_run u waste).treated.nonnh3
          + (ABR_run u waste).n2oOut * 28 / 44 = waste.nh3 + waste.nonnh3 ∧
      (ABR_run u waste).treated.otherSS = waste.otherSS ∧
      (ABR_run u waste).biogasCH4 + (ABR_run u waste).fugitiveCH4 = 0) := by
  constructor
  · intro recovery removal in1 in2 c hnr hnm
    simp only [ECC_run]
    set mix : String → ℚ := fun c => in1 c + in2 c with hmix
    -- case split on membership in each mapping
    cases hr : lookupQ c recovery with
    | none =>
        have h1 := ecc_phase_not_mem mix recovery (fun _ => 0) mix c hr
        cases hm : lookupQ c removal with
        | none =>
            have h2 := ecc_phase_not_mem mix removal (fun _ => 0)
              ((ecc_phase mix recovery (fun _ => 0, mix)).2) c hm
            rw [h1.1, h2.1, h2.2, h1.2]
            simp [hmix]
        | some m =>
            have h2 := ecc_phase_eval mix removal (fun _ => 0)
              ((ecc_phase mix recovery (fun _ => 0, mix)).2) c m hnm hm
            rw [h1.1, h2.1, h2.2, h1.2]
            simp only [hmix]
            ring
    | some r =>
        have h1 := ecc_phase_eval mix recovery (fun _ => 0) mix c r hnr hr
        cases hm : lookupQ c removal with
        | none =>
            have h2 := ecc_phase_not_mem mix removal (fun _ => 0)
              ((ecc_phase mix recovery (fun _ => 0, mix)).2) c hm
            rw [h1.1, h2.1, h2.2, h1.2]
            simp only [hmix]
            ring
        | some m =>
            have h2 := ecc_phase_eval mix removal (fun _ => 0)
              ((ecc_phase mix recovery (fun _ => 0, mix)).2) c m hnm hm
            rw [h1.1, h2.1, h2.2, h1.2]
            simp only [hmix]
            ring
  · intro u waste hcod hn
    have halloc : ∀ tot pref : ℚ,
        (allocate_N_removal tot pref).1 + (allocate_N_removal tot pref).2 = tot := by
      intro tot pref
      unfold allocate_N_removal
      split <;> ring
    refine ⟨?_, ?_, ?_⟩
    · simp only [ABR_run, hn]
      have := halloc (waste.tn / 1000 * waste.fvol * 0) waste.nh3
      have hz : waste.tn / 1000 * waste.fvol * 0 = 0 := by ring
      rw [hz] at this
      rcases hio : u.ifN2O with _ | _ <;> simp [hio] <;> linarith
    · simp [ABR_run, hcod]
    · simp only [ABR_run, hcod]
      rcases hb : u.ifCaptureBiogas with _ | _ <;> simp [hb]

/-- Witness for the amended C5 at concrete mappings and inlets. -/
theorem C5_amended_mass_balance_witness :
    (ECC_run [(("NH3"), (0.6 : ℚ))] [(("NH3"), (0.2 : ℚ))] overIn zeroIn).recovered
        ("NH3")
      + (ECC_run [(("NH3"), (0.6 : ℚ))] [(("NH3"), (0.2 : ℚ))] overIn zeroIn).removed
        ("NH3")
      + (ECC_run [(("NH3"), (0.6 : ℚ))] [(("NH3"), (0.2 : ℚ))] overIn zeroIn).left
        ("NH3")
      = overIn ("NH3") + zeroIn ("NH3") :=
  C5_amended_mass_balance.1 [(("NH3"), (0.6 : ℚ))] [(("NH3"), (0.2 : ℚ))]
    overIn zeroIn ("NH3") (by simp) (by simp)

/-! ## Claim C8 -/

/-- C8: for an inlet with (cached) COD concentration C, flow F and removal
fraction r, `AnaerobicBaffledReactor._run` writes a treated outlet whose
COD concentration is exactly C*(1-r), with the degraded COD mass
C*F/1e3*r routed to the biogas/solids pathway (as CH4 production
COD_deg*MCF_decay*max_CH4_emission on exactly one of the two CH4 outlets).
-/
theorem C8_abr_cod_removal (u : ABRParams) (waste : WS)
    (h : waste.codConc ≠ 0) :
    (ABR_run u waste).treated.codConc = waste.codConc * (1 - u.codRemoval) ∧
    (ABR_run u waste).biogasCH4 + (ABR_run u waste).fugitiveCH4
      = waste.codConc * waste.fvol / 1000 * u.codRemoval * u.mcfDecay * u.maxCH4 := by
  constructor
  · rfl
  · simp only [ABR_run, if_neg h]
    rcases hb : u.ifCaptureBiogas with _ | _ <;> simp [hb]

/-- The spec's example inlet: COD = 1000 g/m3 at 10 m3/hr. -/
def demoWaste : WS :=
  { nh3 := 0, nonnh3 := 0, otherSS := 0, ch4 := 0, n2o := 0,
    codConc := 1000, codProp := 1000, fvol := 10, tn := 0 }

/-- The spec's example configuration: COD_removal = 0.8. -/
def demoABR : ABRParams :=
  { codRemoval := 0.8, nRemoval := 0, mcfDecay := 0.4, maxCH4 := 0.25,
    nMaxDecay := 0, n2oEF := 0, ifCaptureBiogas := true, ifN2O := false }

/-- Witness for C8: the spec's example evaluates to an outlet COD of
exactly 200 g/m3. -/
theorem C8_abr_cod_removal_witness :
    (ABR_run demoABR demoWaste).treated.codConc = 200 ∧
    ((ABR_run demoABR demoWaste).treated.codConc
        = demoWaste.codConc * (1 - demoABR.codRemoval) ∧
      (ABR_run demoABR demoWaste).biogasCH4 + (ABR_run demoABR demoWaste).fugitiveCH4
        = demoWaste.codConc * demoWaste.fvol / 1000 * demoABR.codRemoval
            * demoABR.mcfDecay * demoABR.maxCH4) :=
  ⟨by norm_num [ABR_run, demoABR, demoWaste],
   C8_abr_cod_removal demoABR demoWaste (by norm_num [demoWaste])⟩

/-! ## Rate expressions and the RateEvaluator (C3) -/

/-- The error raised on a genuinely undefined rate-law evaluation. -/
inductive NumErr where
  | numericDomain
deriving DecidableEq, Repr

/-- A symbolic rate-law expression over kinetic parameters and component
concentrations, as written in the source's `rate_equation` strings
(the CANDO3 rate laws only use + - * /). -/
inductive RExpr where
  | lit (q : ℚ)
  | param (s : String)
  | conc (s : String)
  | add (a b : RExpr)
  | sub (a b : RExpr)
  | mul (a b : RExpr)
  | div (a b : RExpr)
deriving DecidableEq, Repr

/-- Whether an expression mentions a kinetic parameter (used to tell a
half-saturation-constant denominator from a pure concentration
denominator). -/
def mentionsParam : RExpr → Bool
  | .param _ => true
  | .add a b => mentionsParam a || mentionsParam b
  | .sub a b => mentionsParam a || mentionsParam b
  | .mul a b => mentionsParam a || mentionsParam b
  | .div a b => mentionsParam a || mentionsParam b
  | _ => false

/-- Modelled from the spec: the RateEvaluator on one rate expression.
Arithmetic is exact over ℚ; a division whose denominator evaluates to zero
is the floor case (result 0, matching the spec's rate→0 contract for a
vanishing concentration) when the denominator is parameter-free, and a
`NumericDomainError` (division by a zero half-saturation constant) when
the denominator mentions a parameter. -/
def evalR (pv cv : String → ℚ) : RExpr → Except NumErr ℚ
  | .lit q => .ok q
  | .param s => .ok (pv s)
  | .conc s => .ok (cv s)
  | .add a b =>
      match evalR pv cv a, evalR pv cv b with
      | .ok x, .ok y => .ok (x + y)
      | .error e, _ => .error e
      | .ok _, .error e => .error e
  | .sub a b =>
      match evalR pv cv a, evalR pv cv b with
      | .ok x, .ok y => .ok (x - y)
      | .error e, _ => .error e
      | .ok _, .error e => .error e
  | .mul a b =>
      match evalR pv cv a, evalR pv cv b with
      | .ok x, .ok y => .ok (x * y)
      | .error e, _ => .error e
      | .ok _, .error e => .error e
  | .div a b =>
      match evalR pv cv a, evalR pv cv b with
      | .ok x, .ok y =>
          if y = 0 then
            if mentionsParam b then .error .numericDomain else .ok 0
          else .ok (x / y)
      | .error e, _ => .error e
      | .ok _, .error e => .error e

theorem evalR_add_ok {pv cv : String → ℚ} {a b : RExpr} {x y : ℚ}
    (ha : evalR pv cv a = .ok x) (hb : evalR pv cv b = .ok y) :
    evalR pv cv (a.add b) = .ok (x + y) := by
  simp [evalR, ha, hb]

theorem evalR_sub_ok {pv cv : String → ℚ} {a b : RExpr} {x y : ℚ}
    (ha : evalR pv cv a = .ok x) (hb : evalR pv cv b = .ok y) :
    evalR pv cv (a.sub b) = .ok (x - y) := by
  simp [evalR, ha, hb]

theorem evalR_mul_ok {pv cv : String → ℚ} {a b : RExpr} {x y : ℚ}
    (ha : evalR pv cv a = .ok x) (hb : evalR pv cv b = .ok y) :
    evalR pv cv (a.mul b) = .ok (x * y) := by
  simp [evalR, ha, hb]

theorem evalR_div_ok {pv cv : String → ℚ} {a b : RExpr} {x y : ℚ}
    (ha : evalR pv cv a = .ok x) (hb : evalR pv cv b = .ok y) (hy : y ≠ 0) :
    evalR pv cv (a.div b) = .ok (x / y) := by
  simp [evalR, ha, hb, hy]

/-- A division with a parameter-free denominator always evaluates, with the
ℚ convention x/0 = 0 agreeing with the spec's floor behavior. -/
theorem evalR_div_concfree {pv cv : String → ℚ} {a b : RExpr} {x y : ℚ}
    (ha : evalR pv cv a = .ok x) (hb : evalR pv cv b = .ok y)
    (hm : mentionsParam b = false) :
    evalR pv cv (a.div b) = .ok (x / y) := by
  by_cases hy : y = 0
  · subst hy
    simp [evalR, ha, hb, hm]
  · simp [evalR, ha, hb, hy]

theorem evalR_div_zero_param {pv cv : String → ℚ} {a b : RExpr} {x : ℚ}
    (ha : evalR pv cv a = .ok x) (hb : evalR pv cv b = .ok 0)
    (hm : mentionsParam b = true) :
    evalR pv cv (a.div b) = .error .numericDomain := by
  simp [evalR, ha, hb, hm]

/-- Parameter leaf shorthand. -/
def rK (s : String) : RExpr := .param s

/-- Concentration leaf shorthand. -/
def rC (s : String) : RExpr := .conc s

/-- The `_p12` (`anox_storage_PP`) rate equation from `CANDO3.__new__`,
transcribed with Python's left-to-right precedence:
`q_PP * S_O2/(k_O2+S_O2) * S_PO4/(k_PS+S_PO4) * S_ALK/(k_ALK+S_ALK)
 * (X_PHA/X_PAO)/(k_PHA+X_PHA/X_PAO)
 * (k_MAX-X_PP/X_PAO)/(k_IPP+k_MAX-X_PP/X_PAO)
 * X_PAO * n_NO3 * k_O2/S_O2 * S_NO3/(k_NO3+S_NO3)`. -/
def p12_rate : RExpr :=
  let t1 := (rK ("q_PP")).mul (rC ("S_O2"))
  let t2 := t1.div ((rK ("k_O2")).add (rC ("S_O2")))
  let t3 := t2.mul (rC ("S_PO4"))
  let t4 := t3.div ((rK ("k_PS")).add (rC ("S_PO4")))
  let t5 := t4.mul (rC ("S_ALK"))
  let t6 := t5.div ((rK ("k_ALK")).add (rC ("S_ALK")))
  let t7 := t6.mul ((rC ("X_PHA")).div (rC ("X_PAO")))
  let t8 := t7.div ((rK ("k_PHA")).add ((rC ("X_PHA")).div (rC ("X_PAO"))))
  let t9 := t8.mul ((rK ("k_MAX")).sub ((rC ("X_PP")).div (rC ("X_PAO"))))
  let t10 := t9.div
    (((rK ("k_IPP")).add (rK ("k_MAX"))).sub ((rC ("X_PP")).div (rC ("X_PAO"))))
  let t11 := t10.mul (rC ("X_PAO"))
  let t12 := t11.mul (rK ("n_NO3"))
  let t13 := t12.mul (rK ("k_O2"))
  let t14 := t13.div (rC ("S_O2"))
  let t15 := t14.mul (rC ("S_NO3"))
  t15.div ((rK ("k_NO3")).add (rC ("S_NO3")))

/-- The `_p14` (`PAO_anox_growth`) rate equation from `CANDO3.__new__`:
`mu_PAO * S_O2/(k_O2 + S_O2) * S_NH4/(k_NH4 + S_NH4) * S_PO4/(k_P + S_PO4)
 * S_ALK/(k_ALK + S_ALK) * (X_PHA/X_PAO)/(k_PHA + X_PHA/X_PAO)
 * X_PAO * n_NO3 * k_O2/S_O2 * S_NO3/(k_NO3 + S_NO3)`. -/
def p14_rate : RExpr :=
  let t1 := (rK ("mu_PAO")).mul (rC ("S_O2"))
  let t2 := t1.div ((rK ("k_O2")).add (rC ("S_O2")))
  let t3 := t2.mul (rC ("S_NH4"))
  let t4 := t3.div ((rK ("k_NH4")).add (rC ("S_NH4")))
  let t5 := t4.mul (rC ("S_PO4"))
  let t6 := t5.div ((rK ("k_P")).add (rC ("S_PO4")))
  let t7 := t6.mul (rC ("S_ALK"))
  let t8 := t7.div ((rK ("k_ALK")).add (rC ("S_ALK")))
  let t9 := t8.mul ((rC ("X_PHA")).div (rC ("X_PAO")))
  let t10 := t9.div ((rK ("k_PHA")).add ((rC ("X_PHA")).div (rC ("X_PAO"))))
  let t11 := t10.mul (rC ("X_PAO"))
  let t12 := t11.mul (rK ("n_NO3"))
  let t13 := t12.mul (rK ("k_O2"))
  let t14 := t13.div (rC ("S_O2"))
  let t15 := t14.mul (rC ("S_NO3"))
  t15.div ((rK ("k_NO3")).add (rC ("S_NO3")))

theorem evalR_param (pv cv : String → ℚ) (s : String) :
    evalR pv cv (rK s) = .ok (pv s) := rfl

theorem evalR_conc (pv cv : String → ℚ) (s : String) :
    evalR pv cv (rC s) = .ok (cv s) := rfl

/-- The domain on which the `_p12` rate law is well defined: positive
half-saturation constants, nonnegative concentrations, and the
storage-saturation denominator `k_IPP + k_MAX - X_PP/X_PAO` away from its
singular point. -/
def p12_domain (pv cv : String → ℚ) : Prop :=
  0 < pv ("k_O2") ∧ 0 < pv ("k_PS") ∧ 0 < pv ("k_ALK") ∧ 0 < pv ("k_PHA") ∧
  0 < pv ("k_NO3") ∧ 0 < pv ("k_IPP") ∧ 0 < pv ("k_MAX") ∧
  0 ≤ cv ("S_O2") ∧ 0 ≤ cv ("S_PO4") ∧ 0 ≤ cv ("S_ALK") ∧ 0 ≤ cv ("X_PHA") ∧
  0 ≤ cv ("X_PAO") ∧ 0 ≤ cv ("X_PP") ∧ 0 ≤ cv ("S_NO3") ∧
  cv ("X_PP") / cv ("X_PAO") ≠ pv ("k_IPP") + pv ("k_MAX")

/-- The domain on which the `_p14` rate law is well defined. -/
def p14_domain (pv cv : String → ℚ) : Prop :=
  0 < pv ("k_O2") ∧ 0 < pv ("k_NH4") ∧ 0 < pv ("k_P") ∧ 0 < pv ("k_ALK") ∧
  0 < pv ("k_PHA") ∧ 0 < pv ("k_NO3") ∧
  0 ≤ cv ("S_O2") ∧ 0 ≤ cv ("S_NH4") ∧ 0 ≤ cv ("S_PO4") ∧ 0 ≤ cv ("S_ALK") ∧
  0 ≤ cv ("X_PHA") ∧ 0 ≤ cv ("X_PAO") ∧ 0 ≤ cv ("S_NO3")

/-! ## Claim C3 -/

/-- C3: rate evaluation of a Monod term with a zero limiting-substrate
concentration and a positive half-saturation constant returns 0 without
raising; a `NumericDomainError` arises on genuinely undefined operations
such as a zero half-saturation constant; and on their domains the CANDO3
rate equations `_p12` and `_p14` (which contain the terms `k_O2/S_O2` and
`X_PHA/X_PAO`) evaluate to rate 0, not an error, whenever `S_O2` or
`X_PAO` is 0. -/
theorem C3_rate_floor :
    (∀ (pv cv : String → ℚ) (K S : String), 0 < pv K → cv S = 0 →
      evalR pv cv ((rC S).div ((rK K).add (rC S)))
        = .ok 0) ∧
    (∀ (pv cv : String → ℚ) (K S : String), pv K = 0 → cv S = 0 →
      evalR pv cv ((rC S).div ((rK K).add (rC S)))
        = .error .numericDomain) ∧
    (∀ pv cv : String → ℚ, p12_domain pv cv →
      cv ("S_O2") = 0 ∨ cv ("X_PAO") = 0 → evalR pv cv p12_rate = .ok 0) ∧
    (∀ pv cv : String → ℚ, p14_domain pv cv →
      cv ("S_O2") = 0 ∨ cv ("X_PAO") = 0 → evalR pv cv p14_rate = .ok 0) := by
  refine ⟨?_, ?_, ?_, ?_⟩
  · intro pv cv K S hK hS
    have hden : pv K + cv S ≠ 0 := by rw [hS, add_zero]; exact hK.ne'
    rw [evalR_div_ok (evalR_conc pv cv S)
      (evalR_add_ok (evalR_param pv cv K) (evalR_conc pv cv S)) hden, hS, zero_div]
  · intro pv cv K S hK hS
    have hden : evalR pv cv ((rK K).add (rC S)) = .ok 0 := by
      rw [evalR_add_ok (evalR_param pv cv K) (evalR_conc pv cv S), hK, hS, add_zero]
    exact evalR_div_zero_param (evalR_conc pv cv S) hden rfl
  · intro pv cv hdom hzero
    obtain ⟨hk1, hk2, hk3, hk4, hk5, hk6, hk7, hc1, hc2, hc3, hc4, hc5, hc6, hc7,
      hsing⟩ := hdom
    have hratio : (0 : ℚ) ≤ cv ("X_PHA") / cv ("X_PAO") := div_nonneg hc4 hc5
    have hd1 : pv ("k_O2") + cv ("S_O2") ≠ 0 := by positivity
    have hd2 : pv ("k_PS") + cv ("S_PO4") ≠ 0 := by positivity
    have hd3 : pv ("k_ALK") + cv ("S_ALK") ≠ 0 := by positivity
    have hd4 : pv ("k_PHA") + cv ("X_PHA") / cv ("X_PAO") ≠ 0 := by positivity
    have hd5 : pv ("k_NO3") + cv ("S_NO3") ≠ 0 := by positivity
    have hguard : pv ("k_IPP") + pv ("k_MAX") - cv ("X_PP") / cv ("X_PAO") ≠ 0 :=
      sub_ne_zero.mpr (Ne.symm hsing)
    have hXr := evalR_div_concfree (evalR_conc pv cv ("X_PHA"))
      (evalR_conc pv cv ("X_PAO")) rfl
    have hPr := evalR_div_concfree (evalR_conc pv cv ("X_PP"))
      (evalR_conc pv cv ("X_PAO")) rfl
    have e1 := evalR_mul_ok (evalR_param pv cv ("q_PP")) (evalR_conc pv cv ("S_O2"))
    have e2 := evalR_div_ok e1
      (evalR_add_ok (evalR_param pv cv ("k_O2")) (evalR_conc pv cv ("S_O2"))) hd1
    have e3 := evalR_mul_ok e2 (evalR_conc pv cv ("S_PO4"))
    have e4 := evalR_div_ok e3
      (evalR_add_ok (evalR_param pv cv ("k_PS")) (evalR_conc pv cv ("S_PO4"))) hd2
    have e5 := evalR_mul_ok e4 (evalR_conc pv cv ("S_ALK"))
    have e6 := evalR_div_ok e5
      (evalR_add_ok (evalR_param pv cv ("k_ALK")) (evalR_conc pv cv ("S_ALK"))) hd3
    have e7 := evalR_mul_ok e6 hXr
    have e8 := evalR_div_ok e7
      (evalR_add_ok (evalR_param pv cv ("k_PHA")) hXr) hd4
    have e9 := evalR_mul_ok e8 (evalR_sub_ok (evalR_param pv cv ("k_MAX")) hPr)
    have e10 := evalR_div_ok e9
      (evalR_sub_ok (evalR_add_ok (evalR_param pv cv ("k_IPP"))
        (evalR_param pv cv ("k_MAX"))) hPr) hguard
    have e11 := evalR_mul_ok e10 (evalR_conc pv cv ("X_PAO"))
    have e12 := evalR_mul_ok e11 (evalR_param pv cv ("n_NO3"))
    have e13 := evalR_mul_ok e12 (evalR_param pv cv ("k_O2"))
    have e14 := evalR_div_concfree e13 (evalR_conc pv cv ("S_O2")) rfl
    have e15 := evalR_mul_ok e14 (evalR_conc pv cv ("S_NO3"))
    have e16 := evalR_div_ok e15
      (evalR_add_ok (evalR_param pv cv ("k_NO3")) (evalR_conc pv cv ("S_NO3"))) hd5
    simp only [p12_rate]
    rw [e16]
    rcases hzero with hS | hP
    · simp [hS]
    · simp [hP]
  · intro pv cv hdom hzero
    obtain ⟨hk1, hk2, hk3, hk4, hk5, hk6, hc1, hc2, hc3, hc4, hc5, hc6, hc7⟩ := hdom
    have hratio : (0 : ℚ) ≤ cv ("X_PHA") / cv ("X_PAO") := div_nonneg hc5 hc6
    have hd1 : pv ("k_O2") + cv ("S_O2") ≠ 0 := by positivity
    have hd2 : pv ("k_NH4") + cv ("S_NH4") ≠ 0 := by positivity
    have hd3 : pv ("k_P") + cv ("S_PO4") ≠ 0 := by positivity
    have hd4 : pv ("k_ALK") + cv ("S_ALK") ≠ 0 := by positivity
    have hd5 : pv ("k_PHA") + cv ("X_PHA") / cv ("X_PAO") ≠ 0 := by positivity
    have hd6 : pv ("k_NO3") + cv ("S_NO3") ≠ 0 := by positivity
    have hXr := evalR_div_concfree (evalR_conc pv cv ("X_PHA"))
      (evalR_conc pv cv ("X_PAO")) rfl
    have e1 := evalR_mul_ok (evalR_param pv cv ("mu_PAO")) (evalR_conc pv cv ("S_O2"))
    have e2 := evalR_div_ok e1
      (evalR_add_ok (evalR_param pv cv ("k_O2")) (evalR_conc pv cv ("S_O2"))) hd1
    have e3 := evalR_mul_ok e2 (evalR_conc pv cv ("S_NH4"))
    have e4 := evalR_div_ok e3
      (evalR_add_ok (evalR_param pv cv ("k_NH4")) (evalR_conc pv cv ("S_NH4"))) hd2
    have e5 := evalR_mul_ok e4 (evalR_conc pv cv ("S_PO4"))
    have e6 := evalR_div_ok e5
      (evalR_add_ok (evalR_param pv cv ("k_P")) (evalR_conc pv cv ("S_PO4"))) hd3
    have e7 := evalR_mul_ok e6 (evalR_conc pv cv ("S_ALK"))
    have e8 := evalR_div_ok e7
      (evalR_add_ok (evalR_param pv cv ("k_ALK")) (evalR_conc pv cv ("S_ALK"))) hd4
    have e9 := evalR_mul_ok e8 hXr
    have e10 := evalR_div_ok e9
      (evalR_add_ok (evalR_param pv cv ("k_PHA")) hXr) hd5
    have e11 := evalR_mul_ok e10 (evalR_conc pv cv ("X_PAO"))
    have e12 := evalR_mul_ok e11 (evalR_param pv cv ("n_NO3"))
    have e13 := evalR_mul_ok e12 (evalR_param pv cv ("k_O2"))
    have e14 := evalR_div_concfree e13 (evalR_conc pv cv ("S_O2")) rfl
    have e15 := evalR_mul_ok e14 (evalR_conc pv cv ("S_NO3"))
    have e16 := evalR_div_ok e15
      (evalR_add_ok (evalR_param pv cv ("k_NO3")) (evalR_conc pv cv ("S_NO3"))) hd6
    simp only [p14_rate]
    rw [e16]
    rcases hzero with hS | hP
    · simp [hS]
    · simp [hP]

/-- Witness for C3: the `_p12` rate evaluates to exactly 0 at unit
half-saturation constants and an all-zero concentration vector. -/
theorem C3_rate_floor_witness :
    evalR (fun _ => 1) (fun _ => 0) p12_rate = .ok 0 :=
  C3_rate_floor.2.2.1 (fun _ => 1) (fun _ => 0)
    (by norm_num [p12_domain]) (Or.inl rfl)

/-! ## Claim C10 -/

/-- The default Gujer-matrix path `_path` of `_CANDO3.py`. -/
def defaultCANDO3Path : String := "process_data/_CANDO3.tsv"

/-- The hand-built `anox_storage_PP` (`_p12`) process row of
`CANDO3.__new__`: reaction
`S_PO4 + [Y_PHA]X_PHA + [?]S_NO3 -> X_PP + [?]S_N2 + [?]S_NH4 + [?]S_ALK`,
coefficient entries in the order (S_PO4, X_PHA, S_NO3, X_PP, S_N2, S_NH4,
S_ALK) with the parameter-linked `Y_PHA` instantiated at its default 0.625;
the conversion-factor vectors of its conserved quantities live in the
component registry outside the snippet set. -/
def anox_storage_PP : ProcRow :=
  { spec := [.known (-1), .known (-(0.625 : ℚ)), .unknown, .known 1, .unknown,
      .unknown, .unknown],
    conserved := [] }

/-- The hand-built `PAO_anox_growth` (`_p14`) process row of
`CANDO3.__new__`: reaction
`[1/Y_PAO]X_PHA + [?]S_NO3 + [?]S_PO4 -> X_PAO + [?]S_N2 + [?]S_NH4 + [?]S_ALK`,
entries in the order (X_PHA, S_NO3, S_PO4, X_PAO, S_N2, S_NH4, S_ALK) with
`1/Y_PAO` instantiated at the default `Y_PAO = 0.2`. -/
def PAO_anox_growth : ProcRow :=
  { spec := [.known (-5), .unknown, .unknown, .known 1, .unknown, .unknown,
      .unknown],
    conserved := [] }

/-- `CANDO3.__new__`'s row-assembly logic, embedded: `if not path: path =
_path` (a falsy caller path falls back to the default), the template rows
are loaded from the effective path, and `if path == _path` the collection
is extended with the two PAO rows before `compile()`. -/
def CANDO3_load (loadFile : String → List ProcRow) (path : Option String) :
    List ProcRow :=
  let eff := match path with
    | none => defaultCANDO3Path
    | some p => if p = "" then defaultCANDO3Path else p
  let base := loadFile eff
  if eff = defaultCANDO3Path then
    extendRows base [anox_storage_PP, PAO_anox_growth]
  else base

/-- C10: `CANDO3.__new__` appends `anox_storage_PP` and `PAO_anox_growth`
before compiling exactly when the effective Gujer-matrix path equals the
default `_path`; for every caller-supplied alternative (non-empty) path the
collection holds only the rows loaded from that file, the two PAO rows
silently omitted. -/
theorem C10_pao_append_iff_default (loadFile : String → List ProcRow) :
    (∀ p : String, p ≠ defaultCANDO3Path → p ≠ "" →
      CANDO3_load loadFile (some p) = loadFile p) ∧
    CANDO3_load loadFile (some defaultCANDO3Path)
      = loadFile defaultCANDO3Path ++ [anox_storage_PP, PAO_anox_growth] ∧
    CANDO3_load loadFile none
      = loadFile defaultCANDO3Path ++ [anox_storage_PP, PAO_anox_growth] := by
  refine ⟨?_, ?_, ?_⟩
  · intro p hp hne
    simp [CANDO3_load, hne, hp, extendRows]
  · simp [CANDO3_load, extendRows]
  · simp [CANDO3_load, extendRows]

/-- Witness for C10 at a concrete alternative path: no PAO rows appended. -/
theorem C10_pao_append_iff_default_witness :
    CANDO3_load (fun _ => [exampleNRow]) (some ("alt_CANDO3.tsv"))
      = [exampleNRow] :=
  (C10_pao_append_iff_default (fun _ => [exampleNRow])).1 ("alt_CANDO3.tsv")
    (by decide) (by decide)
